import Mathlib

/-!
Verification of the chunk/index/search/self-learning engine of the
`custom-rag-agent-builder` backend (`backend/app/rag_utils.py`,
`backend/app/retriever.py`, `backend/app/maintenance.py`,
`backend/app/agents.py`).

Text is modelled as `List Char` (Python `str`), embedding vectors as
`List ℚ` (exact stand-ins for the unit-norm float vectors; all claims
under study are about counts, ordering, filtering and thresholds, none
about float rounding).  The external sentence-transformer encoder is an
uninterpreted parameter `embed : List Char → Vec`.
-/

namespace RagEngine

/-- Python `\s` on the ASCII range (the inputs under study are ASCII):
space, tab, newline, carriage return, vertical tab, form feed. -/
def pySpace (c : Char) : Bool :=
  c = ' ' || c = '\t' || c = '\n' || c = '\r' || c = '\x0b' || c = '\x0c'

/-- Python `str.strip()`: drop whitespace from both ends. -/
def pyStrip (l : List Char) : List Char :=
  ((l.dropWhile pySpace).reverse.dropWhile pySpace).reverse

/-- Python `text.replace("\r\n", "\n")`: left-to-right, non-overlapping. -/
def normNL : List Char → List Char
  | [] => []
  | '\r' :: '\n' :: rest => '\n' :: normNL rest
  | c :: rest => c :: normNL rest

/-- Python `piece.rfind(" ")`: index of the last space, `none` for -1. -/
def rfindSpace (l : List Char) : Option Nat :=
  match (l.reverse).findIdx? (fun c => c = ' ') with
  | some j => some (l.length - 1 - j)
  | none => none

/-- Whitespace back-off of the `chunk_text` loop (rag_utils.py lines
39-44): when the window end is not the end of the text and the last space
of the piece sits strictly past half the window (`last_space >
chunk_size * 0.5`, i.e. `2 * last_space > chunk_size` exactly), trim the
piece at that space and pull the end back accordingly.  Returns the
(possibly trimmed) piece and its end position. -/
def trimPiece (chunk_size tlen i e0 : Nat) (piece0 : List Char) : List Char × Nat :=
  if e0 < tlen then
    match rfindSpace piece0 with
    | some j => if 2 * j > chunk_size then (piece0.take j, i + j) else (piece0, e0)
    | none => (piece0, e0)
  else (piece0, e0)

/-- Loop body of `chunk_text` (rag_utils.py lines 35-50).  One recursion
step per `while i < n` iteration; returns both the emitted chunks and the
`(i, end)` window of every iteration (the window list is the instrumented
view used to reason about window starts).  `fuel` dominates the iteration
count; the Python loop itself diverges when `chunk_size = 0`, and only in
that case can the fuel run out. -/
def chunkAux (t : List Char) (chunk_size overlap : Nat) : Nat → Nat → (List (List Char) × List (Nat × Nat))
  | 0, _ => ([], [])
  | fuel + 1, i =>
    if i < t.length then
      let e0 := min (i + chunk_size) t.length
      let pe := trimPiece chunk_size t.length i e0 ((t.drop i).take (e0 - i))
      let cleaned := pyStrip pe.1
      let rest := chunkAux t chunk_size overlap fuel (max (pe.2 - overlap) pe.2)
      ((if cleaned.isEmpty then [] else [cleaned]) ++ rest.1, (i, pe.2) :: rest.2)
    else ([], [])

/-- Embedding of `chunk_text` (rag_utils.py lines 22-52): the fixed
sliding-window chunker. -/
def chunk_text (text : List Char) (chunk_size : Nat := 800) (overlap : Nat := 200) : List (List Char) :=
  if text.isEmpty then []
  else
    let t := normNL text
    (chunkAux t chunk_size overlap (t.length + 1) 0).1

/-- Instrumented companion of `chunk_text`: the `(start, end)` window of
every loop iteration, sharing the recursion of `chunk_text` exactly. -/
def chunkWindows (text : List Char) (chunk_size : Nat := 800) (overlap : Nat := 200) : List (Nat × Nat) :=
  if text.isEmpty then []
  else
    let t := normNL text
    (chunkAux t chunk_size overlap (t.length + 1) 0).2

/-- Python `str.lower()` restricted to ASCII (strategy names are ASCII). -/
def pyLower (s : String) : String := String.mk (s.toList.map Char.toLower)

/-- Helper for `re.split(r'(?<=[\.\!\?])\s+', text)`: does the previous
character (head of the reversed accumulator) satisfy the lookbehind
`[\.\!\?]`. -/
def sentBoundary (revAcc : List Char) : Bool :=
  match revAcc with
  | p :: _ => p = '.' || p = '!' || p = '?'
  | [] => false

/-- Embedding of `re.split(r'(?<=[\.\!\?])\s+', text)`: split at every
maximal whitespace run whose first character is preceded by `.`, `!` or
`?`; the run itself is consumed.  `revAcc` is the current piece in
reverse.  `fuel` keeps the recursion structural; every step consumes at
least one character of `rest`, so with `fuel ≥ rest.length` the
fuel-exhausted branch is unreachable. -/
def sentSplitAux : Nat → List Char → List Char → List (List Char)
  | _, revAcc, [] => [revAcc.reverse]
  | 0, revAcc, rest => [revAcc.reverse ++ rest]
  | fuel + 1, revAcc, c :: rest =>
    if pySpace c && sentBoundary revAcc then
      revAcc.reverse :: sentSplitAux fuel [] (rest.dropWhile pySpace)
    else
      sentSplitAux fuel (c :: revAcc) rest

/-- Sentence list of `chunk_text_strategy` (rag_utils.py lines 90-93). -/
def sentSplit (text : List Char) : List (List Char) :=
  sentSplitAux (normNL text).length [] (normNL text)

/-- Sentence-aggregation loop of `chunk_text_strategy` (rag_utils.py
lines 95-116), including the trailing `if current: chunks.append(current)`.
`current` is the running buffer. -/
def sentenceLoop (chunk_size overlap : Nat) : List (List Char) → List Char → List (List Char)
  | [], current => if current.isEmpty then [] else [current]
  | s0 :: rest, current =>
    let s := pyStrip s0
    if s.isEmpty then sentenceLoop chunk_size overlap rest current
    else if current.length + s.length + 1 ≤ chunk_size then
      sentenceLoop chunk_size overlap rest (pyStrip (current ++ [' '] ++ s))
    else
      (if current.isEmpty then [] else [current]) ++
      (if chunk_size < s.length then
        chunk_text s chunk_size overlap ++ sentenceLoop chunk_size overlap rest []
      else
        sentenceLoop chunk_size overlap rest s)

/-- Smart-merge pass of `chunk_text_strategy` (rag_utils.py lines
121-137): greedily merge consecutive chunks joined by a newline while the
merged length stays within `chunk_size`. -/
def smartMerge (chunk_size : Nat) : List (List Char) → List Char → List (List Char)
  | [], buffer => if buffer.isEmpty then [] else [buffer]
  | c :: rest, buffer =>
    if buffer.isEmpty then smartMerge chunk_size rest c
    else if buffer.length + c.length + 1 ≤ chunk_size then
      smartMerge chunk_size rest (buffer ++ ['\n'] ++ c)
    else
      buffer :: smartMerge chunk_size rest c

/-- Embedding of `chunk_text_strategy` (rag_utils.py lines 58-139).
Mirrors `strategy = (strategy or "fixed").lower()` and the dispatch: the
`fixed` branch calls `chunk_text`; every other strategy name runs the
sentence-based aggregation, with the `smart` post-pass applied only when
the name is exactly `smart`. -/
def chunk_text_strategy (text : List Char) (strategy : String := "fixed")
    (chunk_size : Nat := 800) (overlap : Nat := 200) : List (List Char) :=
  if text.isEmpty then []
  else
    let strat := pyLower (if strategy = "" then "fixed" else strategy)
    if strat = "fixed" then chunk_text text chunk_size overlap
    else
      let chunks := sentenceLoop chunk_size overlap (sentSplit text) []
      if strat = "smart" then smartMerge chunk_size chunks [] else chunks

/-! ## Index store (rag_utils.py lines 145-268) -/

/-- Embedding vector: exact stand-in for a row of `embeddings.npy`. -/
abbrev Vec := List ℚ

/-- One metadata record as written by `build_and_save_index` /
`build_and_save_index_to_dir` (rag_utils.py lines 173-180 and 232-239):
a JSON object with exactly the keys `text`, `docId`, `filename`. -/
structure MetaRec where
  text : List Char
  docId : List Char
  filename : List Char
  deriving Repr, DecidableEq

/-- Fallback record for positional lookups (never reached on aligned
stores). -/
def defaultMeta : MetaRec := ⟨[], [], []⟩

/-- JSON object written to `meta.json` for one record, as ordered
key/value pairs — exactly the dict literal of rag_utils.py lines 174-178. -/
def metaToPairs (m : MetaRec) : List (String × List Char) :=
  [("text", m.text), ("docId", m.docId), ("filename", m.filename)]

/-- One persisted collection: the pair (`embeddings.npy`, `meta.json`).
An absent collection is the empty store (both files missing). -/
structure Store where
  vectors : List Vec
  meta : List MetaRec
  deriving Repr, DecidableEq

def emptyStore : Store := ⟨[], []⟩

/-- Embedding of `build_and_save_index` (rag_utils.py lines 145-193),
stripped of path plumbing: chunk the text with the default fixed
parameters, embed each chunk (`embed` is the external unit-norm encoder,
one vector per chunk), concatenate vectors after the existing ones and
extend the metadata list.  Returns the new store and the returned
`len(chunks)`.  `np.vstack([existing, vectors]) if existing.size else
vectors` coincides with list concatenation when the existing array is
empty. -/
def build_and_save_index (embed : List Char → Vec) (st : Store)
    (full_text : List Char) (doc_id filename : List Char) : Store × Nat :=
  let chunks := chunk_text full_text 800 200
  if chunks.isEmpty then (st, 0)
  else
    ({ vectors := st.vectors ++ chunks.map embed,
       meta := st.meta ++ chunks.map (fun c => ⟨c, doc_id, filename⟩) },
     chunks.length)

/-- Embedding of `build_and_save_index_to_dir` (rag_utils.py lines
199-252): textually the same append algorithm as `build_and_save_index`,
applied to an agent-directory store. -/
def build_and_save_index_to_dir (embed : List Char → Vec) (st : Store)
    (full_text : List Char) (doc_id filename : List Char) : Store × Nat :=
  let chunks := chunk_text full_text 800 200
  if chunks.isEmpty then (st, 0)
  else
    ({ vectors := st.vectors ++ chunks.map embed,
       meta := st.meta ++ chunks.map (fun c => ⟨c, doc_id, filename⟩) },
     chunks.length)

/-! ## Similarity search (retriever.py lines 101-140) -/

/-- Dot product (`np.dot` of two rows; vectors in one store share the
embedder's fixed dimensionality). -/
def dotQ (a b : Vec) : ℚ := (List.zipWith (· * ·) a b).sum

/-- One entry of the `results` list built by `search`. -/
structure SearchResult where
  score : ℚ
  text : List Char
  filename : List Char
  docId : List Char
  chunk_id : Nat
  deriving Repr, DecidableEq

/-- Insertion step for a descending sort of indices by score. -/
def insertDesc (score : Nat → ℚ) (i : Nat) : List Nat → List Nat
  | [] => [i]
  | j :: rest => if score j < score i then i :: j :: rest else j :: insertDesc score i rest

/-- Embedding of `sims.argsort()[::-1]` (retriever.py line 106): the
indices `0, …, n-1` ordered by descending similarity (the properties
under study are independent of tie order, which numpy's unstable introsort
leaves unspecified anyway). -/
def argsortDesc (sims : List ℚ) : List Nat :=
  (List.range sims.length).foldr (insertDesc (fun i => sims.getD i 0)) []

/-- Filter test of the search loop (retriever.py lines 118-124):
`if doc_filter:` skips filtering for `None` and for the empty string;
otherwise a chunk survives iff `md and str(md).startswith(f"{doc_filter}:")`. -/
def passesDocFilter (doc_filter : Option (List Char)) (md : List Char) : Bool :=
  match doc_filter with
  | none => true
  | some f => if f.isEmpty then true else !md.isEmpty && (f ++ [':']).isPrefixOf md

/-- Result row appended for index `i` (retriever.py lines 129-135). -/
def resAt (sims : List ℚ) (meta : List MetaRec) (i : Nat) : SearchResult :=
  ⟨sims.getD i 0, (meta.getD i defaultMeta).text, (meta.getD i defaultMeta).filename,
   (meta.getD i defaultMeta).docId, i⟩

/-- Collection loop of `search` (retriever.py lines 108-138): walk the
descending index order, skip filtered chunks, append accepted ones, and
break as soon as `len(results) >= k`.  `collected` is the current
`len(results)`. -/
def searchGo (sims : List ℚ) (meta : List MetaRec) (k : Nat)
    (doc_filter : Option (List Char)) (collected : Nat) : List Nat → List SearchResult
  | [] => []
  | i :: rest =>
    if passesDocFilter doc_filter (meta.getD i defaultMeta).docId then
      resAt sims meta i ::
        (if k ≤ collected + 1 then []
         else searchGo sims meta k doc_filter (collected + 1) rest)
    else searchGo sims meta k doc_filter collected rest

/-- Embedding of `search` (retriever.py lines 101-140).  The external
query encoding `EMBED_MODEL.encode(query, ...)` is the uninterpreted
unit-norm vector `q_vec`. -/
def search (q_vec : Vec) (k : Nat) (vectors : List Vec) (meta : List MetaRec)
    (doc_filter : Option (List Char) := none) : List SearchResult :=
  let sims := vectors.map (fun v => dotQ v q_vec)
  searchGo sims meta k doc_filter 0 (argsortDesc sims)

/-! ## Auto-memory step of the generation endpoint (retriever.py lines 252-302) -/

/-- Result of `np.max` over a similarity list (only ever applied to a
non-empty list, as in the source; the `[]` branch is an unused total-
function default). -/
def npMax : List ℚ → ℚ
  | [] => 0
  | x :: xs => xs.foldl max x

/-- Store effect of the auto-memory block of `generate_answer`
(retriever.py lines 261-302), for the `save_memory = True` path with no
I/O failure: build the synthetic `"Q: <query>\nA: <answer>"` text, compute
the maximum similarity of the encoded query against the existing vectors
(0 when no vectors exist), and append the synthetic document through
`build_and_save_index` iff that maximum is strictly below 0.95.  Returns
the new store and the `memory_saved` flag. -/
def generateMemoryStep (embed : List Char → Vec) (st : Store)
    (query answer : List Char) (ts : Nat) : Store × Bool :=
  let synthetic_text := "Q: ".toList ++ query ++ "\nA: ".toList ++ answer
  let q_vec := embed query
  let max_sim := if st.vectors.isEmpty then 0 else npMax (st.vectors.map (fun v => dotQ v q_vec))
  if max_sim < 95 / 100 then
    ((build_and_save_index embed st synthetic_text
        ("synthetic-" ++ toString ts).toList "__synthetic__".toList).1, true)
  else (st, false)

/-! ## Maintenance rebuild (maintenance.py lines 42-142) -/

/-- Incremental deduplication loop of `rebuild_index` (maintenance.py
lines 113-128): a candidate joins the unique set iff that set is empty or
the maximum dot product against every previously retained vector is
strictly below the threshold; vector and metadata are appended in
lockstep. -/
def dedupLoop (threshold : ℚ) : List (Vec × MetaRec) → List Vec → List MetaRec →
    List Vec × List MetaRec
  | [], unique_vectors, unique_meta => (unique_vectors, unique_meta)
  | (v, m) :: rest, unique_vectors, unique_meta =>
    if unique_vectors.isEmpty then
      dedupLoop threshold rest (unique_vectors ++ [v]) (unique_meta ++ [m])
    else if npMax (unique_vectors.map (fun u => dotQ u v)) < threshold then
      dedupLoop threshold rest (unique_vectors ++ [v]) (unique_meta ++ [m])
    else
      dedupLoop threshold rest unique_vectors unique_meta

/-- Return payload of `rebuild_index` that the claims mention, plus the
store it persists. -/
structure RebuildResult where
  store : Store
  total_chunks : Nat
  unique_chunks : Nat
  synthetic_items : Nat
  deriving Repr, DecidableEq

/-- Embedding of `rebuild_index` (maintenance.py lines 42-142), stripped
of transport/auth: from the raw documents of the scope (`(filename,
extracted text)` pairs) and the previous `meta.json` contents, re-chunk
real documents with the default fixed parameters and synthetic memories
with `chunk_size=500` (overlap stays at its default 200), embed, run the
incremental dedup pass at threshold 0.97, and replace the store wholesale.
Returns `none` where the source raises `HTTPException(400)` on an empty
candidate set. -/
def rebuild_index (embed : List Char → Vec)
    (raw_docs : List (List Char × List Char)) (oldMeta : List MetaRec) :
    Option RebuildResult :=
  let synthetic_blocks := (oldMeta.filter (fun m => m.filename = "__synthetic__".toList)).map (·.text)
  let docItems := raw_docs.flatMap (fun fd =>
    (chunk_text fd.2 800 200).map (fun c => (c, (⟨c, fd.1, fd.1⟩ : MetaRec))))
  let synItems := synthetic_blocks.flatMap (fun text =>
    (chunk_text text 500 200).map (fun c =>
      (c, (⟨c, "__synthetic__".toList, "__synthetic__".toList⟩ : MetaRec))))
  let items := docItems ++ synItems
  if items.isEmpty then none
  else
    let rows := items.map (fun cm => (embed cm.1, cm.2))
    let ded := dedupLoop (97 / 100) rows [] []
    some { store := ⟨ded.1, ded.2⟩,
           total_chunks := items.length,
           unique_chunks := ded.1.length,
           synthetic_items := synthetic_blocks.length }

/-! ## Agent upload / reindex store effect (agents.py lines 367-382 and 592-606) -/

/-- Python `"\n".join(chunks)`. -/
def joinNL (chunks : List (List Char)) : List Char :=
  List.intercalate ['\n'] chunks

/-- Store effect of indexing one file for an agent, shared verbatim by
`upload_files_to_agent` (agents.py lines 367-380) and `_do_reindex`
(agents.py lines 603-606): chunk the extracted text with the agent's
configured strategy, newline-join the chunks, and hand the joined text to
`build_and_save_index_to_dir` with `doc_id = f"{agent_id}:{fid}"`. -/
def agentIndexOneFile (embed : List Char → Vec) (st : Store)
    (extracted : List Char) (strategy : String) (chunk_size overlap : Nat)
    (agent_id fid fname : List Char) : Store × Nat :=
  let chunks := chunk_text_strategy extracted strategy chunk_size overlap
  build_and_save_index_to_dir embed st (joinNL chunks)
    (agent_id ++ [':'] ++ fid) fname

/-! ## Claim-side definitions

These two definitions follow the SPEC's words (not the source); they are
used only to state claims against the behaviour of the source-derived
definitions above. -/

/-- Spec §4.5 step 1: the mean of the returned retrieval scores, 0 when
there are no results. -/
def specAvgScore (results : List SearchResult) : ℚ :=
  if results.isEmpty then 0 else (results.map (·.score)).sum / results.length

/-- Spec §4.1 `fixed` (claim C6): each window after the first starts
`overlap` characters before the previous window's actual (possibly
trimmed) end. -/
def specOverlappedStarts (overlap : Nat) (ws : List (Nat × Nat)) : Prop :=
  List.Chain' (fun w₁ w₂ => w₂.1 = w₁.2 - overlap) ws

/-! ## Helper lemmas -/

lemma pyStrip_length_le (l : List Char) : (pyStrip l).length ≤ l.length := by
  unfold pyStrip
  calc ((l.dropWhile pySpace).reverse.dropWhile pySpace).reverse.length
      = ((l.dropWhile pySpace).reverse.dropWhile pySpace).length := by
        rw [List.length_reverse]
    _ ≤ (l.dropWhile pySpace).reverse.length :=
        (List.dropWhile_sublist pySpace).length_le
    _ = (l.dropWhile pySpace).length := by rw [List.length_reverse]
    _ ≤ l.length := (List.dropWhile_sublist pySpace).length_le

lemma trimPiece_fst_length (cs n i e0 : Nat) (p : List Char) :
    (trimPiece cs n i e0 p).1.length ≤ p.length := by
  unfold trimPiece
  split
  · cases h : rfindSpace p with
    | some j =>
      simp only [h]
      split
      · simp
      · exact le_rfl
    | none => simp only [h]; exact le_rfl
  · exact le_rfl

lemma chunkAux_chunk_length (t : List Char) (cs ov : Nat) :
    ∀ fuel i, ∀ c ∈ (chunkAux t cs ov fuel i).1, c.length ≤ cs := by
  intro fuel
  induction fuel with
  | zero => intro i c hc; simp [chunkAux] at hc
  | succ fuel ih =>
    intro i c hc
    simp only [chunkAux] at hc
    split at hc
    · rw [List.mem_append] at hc
      rcases hc with hc | hc
      · have hne : ¬ (pyStrip (trimPiece cs t.length i (min (i + cs) t.length)
            ((t.drop i).take (min (i + cs) t.length - i))).1).isEmpty := by
          intro hemp
          simp [hemp] at hc
        rw [if_neg hne, List.mem_singleton] at hc
        subst hc
        have h1 := pyStrip_length_le (trimPiece cs t.length i (min (i + cs) t.length)
            ((t.drop i).take (min (i + cs) t.length - i))).1
        have h2 := trimPiece_fst_length cs t.length i (min (i + cs) t.length)
            ((t.drop i).take (min (i + cs) t.length - i))
        have h3 : ((t.drop i).take (min (i + cs) t.length - i)).length
            ≤ min (i + cs) t.length - i := by
          simp [List.length_take]
        have h4 : min (i + cs) t.length ≤ i + cs := min_le_left _ _
        omega
      · exact ih _ c hc
    · simp at hc

lemma chunkAux_overlap_eq (t : List Char) (cs ov ov' : Nat) :
    ∀ fuel i, chunkAux t cs ov fuel i = chunkAux t cs ov' fuel i := by
  intro fuel
  induction fuel with
  | zero => intro i; rfl
  | succ fuel ih =>
    intro i
    have hmax : ∀ e : Nat, max (e - ov) e = e := fun e => Nat.max_eq_right (Nat.sub_le e ov)
    have hmax' : ∀ e : Nat, max (e - ov') e = e := fun e => Nat.max_eq_right (Nat.sub_le e ov')
    by_cases h : i < t.length
    · simp only [chunkAux, if_pos h]
      rw [hmax, hmax', ih]
    · simp only [chunkAux, if_neg h]

lemma chunkAux_windows_chain (t : List Char) (cs ov : Nat) :
    ∀ fuel i,
      List.Chain' (fun w₁ w₂ : Nat × Nat => w₂.1 = w₁.2) (chunkAux t cs ov fuel i).2 ∧
      ∀ w ∈ (chunkAux t cs ov fuel i).2.head?, w.1 = i := by
  intro fuel
  induction fuel with
  | zero => intro i; simp [chunkAux]
  | succ fuel ih =>
    intro i
    have hmax : ∀ e : Nat, max (e - ov) e = e := fun e => Nat.max_eq_right (Nat.sub_le e ov)
    by_cases h : i < t.length
    · simp only [chunkAux, if_pos h]
      rw [hmax]
      constructor
      · rw [List.chain'_cons']
        exact ⟨fun w hw => (ih _).2 w hw, (ih _).1⟩
      · intro w hw
        simp only [List.head?_cons, Option.mem_def, Option.some.injEq] at hw
        subst hw
        rfl
    · simp [chunkAux, if_neg h]

lemma isPrefixOf_length_le (p l : List Char) (h : p.isPrefixOf l = true) :
    p.length ≤ l.length := by
  induction p generalizing l with
  | nil => simp
  | cons a as ih =>
    cases l with
    | nil => simp [List.isPrefixOf] at h
    | cons b bs =>
      simp only [List.isPrefixOf, Bool.and_eq_true] at h
      simpa using ih bs h.2

lemma insertDesc_mem (score : Nat → ℚ) (i : Nat) (l : List Nat) (x : Nat) :
    x ∈ insertDesc score i l ↔ x = i ∨ x ∈ l := by
  induction l with
  | nil => simp [insertDesc]
  | cons j rest ih =>
    simp only [insertDesc]
    split
    · simp [or_comm, or_assoc, or_left_comm]
    · simp [ih, or_comm, or_assoc, or_left_comm]

lemma insertDesc_pairwise (score : Nat → ℚ) (i : Nat) (l : List Nat)
    (h : List.Pairwise (fun a b => score b ≤ score a) l) :
    List.Pairwise (fun a b => score b ≤ score a) (insertDesc score i l) := by
  induction l with
  | nil => simp [insertDesc]
  | cons j rest ih =>
    rw [List.pairwise_cons] at h
    simp only [insertDesc]
    split
    · rename_i hji
      rw [List.pairwise_cons]
      refine ⟨?_, List.pairwise_cons.mpr h⟩
      intro x hx
      rcases List.mem_cons.mp hx with rfl | hx
      · exact le_of_lt hji
      · exact le_trans (h.1 x hx) (le_of_lt hji)
    · rename_i hji
      rw [List.pairwise_cons]
      refine ⟨?_, ih h.2⟩
      intro x hx
      rcases (insertDesc_mem score i rest x).mp hx with rfl | hx
      · exact le_of_not_lt hji
      · exact h.1 x hx

lemma argsortDesc_pairwise (sims : List ℚ) :
    List.Pairwise (fun a b => sims.getD b 0 ≤ sims.getD a 0) (argsortDesc sims) := by
  unfold argsortDesc
  generalize List.range sims.length = l
  induction l with
  | nil => simp
  | cons a l ih => exact insertDesc_pairwise _ a _ ih

lemma searchGo_mem (sims : List ℚ) (meta : List MetaRec) (k : Nat)
    (f : Option (List Char)) :
    ∀ idxs collected r, r ∈ searchGo sims meta k f collected idxs →
      ∃ i ∈ idxs, r = resAt sims meta i ∧
        passesDocFilter f (meta.getD i defaultMeta).docId = true := by
  intro idxs
  induction idxs with
  | nil => intro collected r hr; simp [searchGo] at hr
  | cons i rest ih =>
    intro collected r hr
    simp only [searchGo] at hr
    split at hr
    · rename_i hpass
      rcases List.mem_cons.mp hr with rfl | hr
      · exact ⟨i, List.mem_cons_self i rest, rfl, hpass⟩
      · split at hr
        · simp at hr
        · obtain ⟨i', hi', hres, hp⟩ := ih _ r hr
          exact ⟨i', List.mem_cons_of_mem i hi', hres, hp⟩
    · obtain ⟨i', hi', hres, hp⟩ := ih _ r hr
      exact ⟨i', List.mem_cons_of_mem i hi', hres, hp⟩

lemma searchGo_length (sims : List ℚ) (meta : List MetaRec) (k : Nat)
    (f : Option (List Char)) :
    ∀ idxs collected, collected < k →
      (searchGo sims meta k f collected idxs).length ≤ k - collected := by
  intro idxs
  induction idxs with
  | nil => intro collected _; simp [searchGo]
  | cons i rest ih =>
    intro collected hc
    simp only [searchGo]
    split
    · split
      · rename_i hk
        simp only [List.length_cons, List.length_nil]
        omega
      · rename_i hk
        have := ih (collected + 1) (by omega)
        simp only [List.length_cons]
        omega
    · exact ih collected hc

lemma searchGo_pairwise (sims : List ℚ) (meta : List MetaRec) (k : Nat)
    (f : Option (List Char)) :
    ∀ idxs collected, List.Pairwise (fun a b => sims.getD b 0 ≤ sims.getD a 0) idxs →
      List.Pairwise (fun r s : SearchResult => s.score ≤ r.score)
        (searchGo sims meta k f collected idxs) := by
  intro idxs
  induction idxs with
  | nil => intro collected _; simp [searchGo]
  | cons i rest ih =>
    intro collected hp
    rw [List.pairwise_cons] at hp
    simp only [searchGo]
    split
    · rw [List.pairwise_cons]
      constructor
      · intro s hs
        have hs' : s ∈ searchGo sims meta k f (collected + 1) rest := by
          split at hs
          · simp at hs
          · exact hs
        obtain ⟨j, hj, rfl, _⟩ := searchGo_mem sims meta k f rest (collected + 1) s hs'
        exact hp.1 j hj
      · split
        · simp
        · exact ih _ hp.2
    · exact ih _ hp.2

lemma search_mem (q_vec : Vec) (k : Nat) (vectors : List Vec) (meta : List MetaRec)
    (f : Option (List Char)) (r : SearchResult)
    (hr : r ∈ search q_vec k vectors meta f) :
    passesDocFilter f r.docId = true := by
  unfold search at hr
  obtain ⟨i, _, rfl, hp⟩ := searchGo_mem _ meta k f _ 0 r hr
  exact hp

lemma foldl_max_init_le (ys : List ℚ) : ∀ a : ℚ, a ≤ ys.foldl max a := by
  induction ys with
  | nil => intro a; exact le_rfl
  | cons b ys ih =>
    intro a
    exact le_trans (le_max_left a b) (ih (max a b))

lemma foldl_max_mem_le (ys : List ℚ) (x : ℚ) (hx : x ∈ ys) :
    ∀ a : ℚ, x ≤ ys.foldl max a := by
  induction ys with
  | nil => simp at hx
  | cons b ys ih =>
    intro a
    rcases List.mem_cons.mp hx with rfl | hx
    · exact le_trans (le_max_right a x) (foldl_max_init_le ys (max a x))
    · exact ih hx (max a b)

lemma le_npMax_of_mem (l : List ℚ) (x : ℚ) (hx : x ∈ l) : x ≤ npMax l := by
  cases l with
  | nil => simp at hx
  | cons y ys =>
    simp only [npMax]
    rcases List.mem_cons.mp hx with rfl | hx
    · exact foldl_max_init_le ys x
    · exact foldl_max_mem_le ys x hx y

lemma dedupLoop_pairwise (θ : ℚ) :
    ∀ (rows : List (Vec × MetaRec)) (uv : List Vec) (um : List MetaRec),
      List.Pairwise (fun a b => dotQ a b < θ) uv →
      List.Pairwise (fun a b => dotQ a b < θ) (dedupLoop θ rows uv um).1 := by
  intro rows
  induction rows with
  | nil => intro uv um h; exact h
  | cons vm rest ih =>
    intro uv um h
    obtain ⟨v, m⟩ := vm
    simp only [dedupLoop]
    split
    · rename_i hemp
      refine ih _ _ ?_
      rw [List.isEmpty_iff] at hemp
      subst hemp
      simp
    · split
      · rename_i hemp hmax
        refine ih _ _ ?_
        rw [List.pairwise_append]
        refine ⟨h, by simp, ?_⟩
        intro a ha b hb
        rw [List.mem_singleton] at hb
        subst hb
        exact lt_of_le_of_lt
          (le_npMax_of_mem _ _ (List.mem_map_of_mem (fun u => dotQ u b) ha)) hmax
      · exact ih _ _ h

lemma dedupLoop_length (θ : ℚ) :
    ∀ (rows : List (Vec × MetaRec)) (uv : List Vec) (um : List MetaRec),
      (dedupLoop θ rows uv um).1.length ≤ uv.length + rows.length := by
  intro rows
  induction rows with
  | nil => intro uv um; simp [dedupLoop]
  | cons vm rest ih =>
    intro uv um
    obtain ⟨v, m⟩ := vm
    simp only [dedupLoop]
    split
    · have h1 := ih (uv ++ [v]) (um ++ [m])
      rw [List.length_append, List.length_singleton] at h1
      rw [List.length_cons]
      omega
    · split
      · have h1 := ih (uv ++ [v]) (um ++ [m])
        rw [List.length_append, List.length_singleton] at h1
        rw [List.length_cons]
        omega
      · have h1 := ih uv um
        rw [List.length_cons]
        omega

lemma dedupLoop_le_rows (θ : ℚ) (rows : List (Vec × MetaRec)) :
    (dedupLoop θ rows [] []).1.length ≤ rows.length := by
  simpa using dedupLoop_length θ rows [] []

lemma dedupLoop_parity (θ : ℚ) :
    ∀ (rows : List (Vec × MetaRec)) (uv : List Vec) (um : List MetaRec),
      uv.length = um.length →
      (dedupLoop θ rows uv um).1.length = (dedupLoop θ rows uv um).2.length := by
  intro rows
  induction rows with
  | nil => intro uv um h; exact h
  | cons vm rest ih =>
    intro uv um h
    obtain ⟨v, m⟩ := vm
    simp only [dedupLoop]
    split
    · exact ih _ _ (by simp [h])
    · split
      · exact ih _ _ (by simp [h])
      · exact ih _ _ h

/-! ## Claim theorems -/

/-- C5 counterexample: the unknown strategy name `"foo"` does not fall
back to the fixed chunker — on `"ab. cd."` with chunkSize 3, overlap 0
the strategy chunker yields `["ab.", "cd."]` (sentence aggregation) while
the fixed chunker yields `["ab.", "cd", "."]`. -/
theorem claim_C5_counterexample :
    chunk_text_strategy "ab. cd.".toList "foo" 3 0 ≠ chunk_text "ab. cd.".toList 3 0 := by
  decide

/-- C5 (amended): only the empty (Python falsy) strategy name falls back
to the fixed chunker — `chunk_text_strategy text "" cs ov` equals
`chunk_text text cs ov` for every text, chunkSize and overlap.  An
unknown non-empty strategy name instead produces the sentence-based
chunking (see the counterexample). -/
theorem claim_C5_empty_strategy_fallback (text : List Char) (chunk_size overlap : Nat) :
    chunk_text_strategy text "" chunk_size overlap = chunk_text text chunk_size overlap := by
  have hfix : pyLower "fixed" = "fixed" := by decide
  by_cases h : text.isEmpty
  · simp [chunk_text_strategy, chunk_text, h]
  · simp [chunk_text_strategy, h, hfix]

/-- C6 counterexample: on `"A cat sat. A dog ran."` with chunkSize 10,
overlap 2, the loop windows are `(0,10), (10,16), (16,21)` — each window
starts exactly at the previous window's (trimmed) end, not `overlap`
characters before it (the second window would have to start at
10 - 2 = 8), and the emitted chunks share no characters. -/
theorem claim_C6_counterexample :
    chunkWindows "A cat sat. A dog ran.".toList 10 2 = [(0, 10), (10, 16), (16, 21)] ∧
    chunk_text "A cat sat. A dog ran.".toList 10 2 =
      ["A cat sat.".toList, "A dog".toList, "ran.".toList] ∧
    ¬ specOverlappedStarts 2 (chunkWindows "A cat sat. A dog ran.".toList 10 2) := by
  refine ⟨by decide, by decide, fun h => ?_⟩
  unfold specOverlappedStarts at h
  rw [(by decide : chunkWindows "A cat sat. A dog ran.".toList 10 2 =
      [(0, 10), (10, 16), (16, 21)])] at h
  simp [List.chain'_cons] at h

/-- C6 (amended): in the fixed chunker the next window start is the
previous window's actual (possibly trimmed) end — `max(end - overlap,
end) = end` — so the `overlap` argument has no effect on the output at
all and consecutive windows (hence chunks) never share characters. -/
theorem claim_C6_overlap_has_no_effect (text : List Char) (chunk_size overlap : Nat) :
    (chunk_text text chunk_size overlap = chunk_text text chunk_size 0 ∧
     chunkWindows text chunk_size overlap = chunkWindows text chunk_size 0) ∧
    List.Chain' (fun w₁ w₂ => w₂.1 = w₁.2) (chunkWindows text chunk_size overlap) := by
  refine ⟨⟨?_, ?_⟩, ?_⟩
  · simp only [chunk_text]
    split
    · rfl
    · exact congrArg Prod.fst (chunkAux_overlap_eq (normNL text) chunk_size overlap 0 _ 0)
  · simp only [chunkWindows]
    split
    · rfl
    · exact congrArg Prod.snd (chunkAux_overlap_eq (normNL text) chunk_size overlap 0 _ 0)
  · simp only [chunkWindows]
    split
    · simp
    · exact (chunkAux_windows_chain (normNL text) chunk_size overlap _ 0).1

/-- C7: for every non-empty text and chunkSize ≥ 1, every chunk emitted
by the fixed chunker has length at most chunkSize.  (The claim's second
half, determinism in `(text, chunkSize, overlap)` alone, holds by
construction: `chunk_text` is a pure function of exactly those
arguments.) -/
theorem claim_C7_fixed_chunk_length (text : List Char) (chunk_size overlap : Nat)
    (_hcs : 1 ≤ chunk_size) (_hne : text ≠ []) :
    ∀ c ∈ chunk_text text chunk_size overlap, c.length ≤ chunk_size := by
  intro c hc
  simp only [chunk_text] at hc
  split at hc
  · simp at hc
  · exact chunkAux_chunk_length (normNL text) chunk_size overlap _ 0 c hc

/-- C7 witness: a concrete instance of `claim_C7_fixed_chunk_length`. -/
theorem claim_C7_witness : ((chunk_text "hi".toList 5 0).getD 0 []).length ≤ 5 :=
  claim_C7_fixed_chunk_length "hi".toList 5 0 (by decide) (by decide) _ (by decide)

/-- C1: the vector/metadata parity invariant — both append operations
(`build_and_save_index` and `build_and_save_index_to_dir`) preserve
`len(vectors) = len(metadata)`, and a successful maintenance rebuild
re-establishes it for the store it writes. -/
theorem claim_C1_store_parity (embed : List Char → Vec) (st : Store)
    (full_text : List Char) (doc_id filename : List Char)
    (raw_docs : List (List Char × List Char)) (oldMeta : List MetaRec)
    (hst : st.vectors.length = st.meta.length) :
    ((build_and_save_index embed st full_text doc_id filename).1.vectors.length
      = (build_and_save_index embed st full_text doc_id filename).1.meta.length) ∧
    ((build_and_save_index_to_dir embed st full_text doc_id filename).1.vectors.length
      = (build_and_save_index_to_dir embed st full_text doc_id filename).1.meta.length) ∧
    (∀ r, rebuild_index embed raw_docs oldMeta = some r →
      r.store.vectors.length = r.store.meta.length) := by
  refine ⟨?_, ?_, ?_⟩
  · simp only [build_and_save_index]
    split
    · exact hst
    · simp [hst]
  · simp only [build_and_save_index_to_dir]
    split
    · exact hst
    · simp [hst]
  · intro r hr
    simp only [rebuild_index] at hr
    split at hr
    · simp at hr
    · rw [Option.some.injEq] at hr
      subst hr
      exact dedupLoop_parity (97 / 100) _ [] [] rfl

/-- C1 witness: a concrete instance of `claim_C1_store_parity`. -/
theorem claim_C1_witness :
    (build_and_save_index (fun _ => []) emptyStore "hi".toList "d".toList "f".toList).1.vectors.length
      = (build_and_save_index (fun _ => []) emptyStore "hi".toList "d".toList "f".toList).1.meta.length :=
  (claim_C1_store_parity (fun _ => []) emptyStore "hi".toList "d".toList "f".toList [] [] rfl).1

/-- C2 counterexample: after appending `"hello"` to an empty store, one
metadata record is stored and its persisted JSON object has no
`sequence` key at all — no sequence position is assigned at append
time. -/
theorem claim_C2_counterexample :
    (build_and_save_index (fun _ => []) emptyStore "hello".toList "d".toList "f".toList).1.meta.length = 1 ∧
    (metaToPairs ((build_and_save_index (fun _ => []) emptyStore "hello".toList
        "d".toList "f".toList).1.meta.getD 0 defaultMeta)).lookup "sequence" = none := by
  constructor
  · decide
  · decide

/-- C2 (amended): every metadata record appended by
`build_and_save_index` carries exactly the keys `text`, `docId`,
`filename` — in particular no `sequence` key, so no append-time sequence
position exists and the spec's strict-increase property has nothing to
refer to. -/
theorem claim_C2_no_sequence_field (embed : List Char → Vec) (st : Store)
    (full_text : List Char) (doc_id filename : List Char) :
    ∀ m ∈ (build_and_save_index embed st full_text doc_id filename).1.meta.drop st.meta.length,
      (metaToPairs m).map Prod.fst = ["text", "docId", "filename"] ∧
      (metaToPairs m).lookup "sequence" = none := by
  intro m hm
  simp only [build_and_save_index] at hm
  split at hm
  · rw [List.drop_length] at hm
    simp at hm
  · rw [List.drop_left] at hm
    obtain ⟨c, _, rfl⟩ := List.mem_map.mp hm
    exact ⟨rfl, rfl⟩

/-- C2 witness: a concrete instance of `claim_C2_no_sequence_field`. -/
theorem claim_C2_witness :
    (metaToPairs (⟨"hi".toList, "d".toList, "f".toList⟩ : MetaRec)).map Prod.fst
      = ["text", "docId", "filename"] ∧
    (metaToPairs (⟨"hi".toList, "d".toList, "f".toList⟩ : MetaRec)).lookup "sequence" = none :=
  claim_C2_no_sequence_field (fun _ => []) emptyStore "hi".toList "d".toList "f".toList
    ⟨"hi".toList, "d".toList, "f".toList⟩ (by decide)

/-- C3 counterexample: a collection whose only (hence top-scoring) chunk
has `docId` exactly equal to the owner filter returns nothing — the
filter accepts only identifiers that begin with `"<filter>:"`, never an
exact match, contrary to the claimed equals-or-scoped-under
eligibility. -/
theorem claim_C3_counterexample :
    search [1] 5 [[1]] [⟨"t".toList, "doc1".toList, "f".toList⟩] (some "doc1".toList) = [] := by
  decide

/-- C3 (amended): with a non-empty owner filter `f`, a chunk is eligible
iff its `docId` is non-empty and begins with `f ++ ":"`; consequently
every returned result's `docId` starts with `f ++ ":"` and is never
exactly `f` (and never empty) — exact equality with the filter is not
eligible. -/
theorem claim_C3_owner_filter (q_vec : Vec) (k : Nat) (vectors : List Vec)
    (meta : List MetaRec) (f : List Char) (hf : f ≠ [])
    (r : SearchResult) (hr : r ∈ search q_vec k vectors meta (some f)) :
    (f ++ [':']).isPrefixOf r.docId = true ∧ r.docId ≠ f ∧ r.docId ≠ [] := by
  have hp := search_mem q_vec k vectors meta (some f) r hr
  simp only [passesDocFilter] at hp
  rw [if_neg (by simpa using hf)] at hp
  rw [Bool.and_eq_true] at hp
  obtain ⟨hne, hpre⟩ := hp
  refine ⟨hpre, ?_, ?_⟩
  · intro heq
    have hlen := isPrefixOf_length_le _ _ hpre
    rw [heq, List.length_append] at hlen
    simp at hlen
  · intro heq
    rw [heq] at hne
    simp at hne

/-- C3 witness: a concrete instance of `claim_C3_owner_filter` — a chunk
stored under `"a:1"` is returned by a search filtered on `"a"`. -/
theorem claim_C3_witness :
    ("a".toList ++ [':']).isPrefixOf
      (⟨0, "t".toList, "f".toList, "a:1".toList, 0⟩ : SearchResult).docId = true :=
  (claim_C3_owner_filter [] 2 [[]] [⟨"t".toList, "a:1".toList, "f".toList⟩] "a".toList
    (by decide) ⟨0, "t".toList, "f".toList, "a:1".toList, 0⟩
    (by simp [search, searchGo, argsortDesc, insertDesc, resAt, defaultMeta,
              passesDocFilter, dotQ])).1

/-- C8 counterexample: with `k = 0` (Python accepts it: the break test
`len(results) >= k` runs only after an append), a non-empty collection
still yields one result — more than k. -/
theorem claim_C8_counterexample :
    (search [] 0 [[]] [⟨"t".toList, "d".toList, "f".toList⟩] none).length = 1 ∧
    ¬ ((search [] 0 [[]] [⟨"t".toList, "d".toList, "f".toList⟩] none).length ≤ 0) := by
  constructor
  · decide
  · decide

/-- C8 (amended): for every k ≥ 1 (the claim fails at k = 0, see the
counterexample), `search` returns at most k results, in non-increasing
score order, and every returned result passes the supplied owner filter;
returning fewer than k results is an ordinary outcome, not an error (the
function is total). -/
theorem claim_C8_search_bounds (q_vec : Vec) (k : Nat) (vectors : List Vec)
    (meta : List MetaRec) (f : Option (List Char)) (hk : 1 ≤ k) :
    (search q_vec k vectors meta f).length ≤ k ∧
    List.Pairwise (fun r s : SearchResult => s.score ≤ r.score) (search q_vec k vectors meta f) ∧
    ∀ r ∈ search q_vec k vectors meta f, passesDocFilter f r.docId = true := by
  refine ⟨?_, ?_, ?_⟩
  · simp only [search]
    have h := searchGo_length (vectors.map (fun v => dotQ v q_vec)) meta k f
      (argsortDesc (vectors.map (fun v => dotQ v q_vec))) 0 (by omega)
    omega
  · exact searchGo_pairwise _ meta k f _ 0 (argsortDesc_pairwise _)
  · intro r hr
    exact search_mem q_vec k vectors meta f r hr

/-- C8 witness: a concrete instance of `claim_C8_search_bounds`. -/
theorem claim_C8_witness : (search [] 1 [] [] none).length ≤ 1 :=
  (claim_C8_search_bounds [] 1 [] [] none (by decide)).1

/-- C4 counterexample: a generation event over a one-chunk store whose
single retrieval score is 0 — average retrieval score 0 < 0.55, the
claimed auto-retrain trigger — yet the store after the event has simply
grown from 1 to 2 records with the pre-existing vector still at position
0: the collection was appended to by the 0.95 max-similarity memory
check, never cleared, re-extracted or re-chunked, and no reindex task
exists anywhere in the generation path. -/
theorem claim_C4_counterexample :
    specAvgScore (search [0, 1] 5 [[1, 0]]
      [⟨"old".toList, "d".toList, "f".toList⟩] none) < 55 / 100 ∧
    (generateMemoryStep (fun _ => [0, 1]) ⟨[[1, 0]], [⟨"old".toList, "d".toList, "f".toList⟩]⟩
      "q".toList "a".toList 7).1.vectors.length = 2 ∧
    (generateMemoryStep (fun _ => [0, 1]) ⟨[[1, 0]], [⟨"old".toList, "d".toList, "f".toList⟩]⟩
      "q".toList "a".toList 7).1.vectors.getD 0 [] = [1, 0] := by
  have hv : (generateMemoryStep (fun _ => [0, 1])
      ⟨[[1, 0]], [⟨"old".toList, "d".toList, "f".toList⟩]⟩
      "q".toList "a".toList 7).1.vectors = [[1, 0], [0, 1]] := by
    norm_num [generateMemoryStep, npMax, dotQ, build_and_save_index, chunk_text]
    simp +decide [chunkAux, trimPiece, rfindSpace, pyStrip, pySpace, normNL]
  refine ⟨?_, ?_, ?_⟩
  · norm_num [specAvgScore, search, searchGo, argsortDesc, insertDesc, dotQ, resAt,
      passesDocFilter, defaultMeta]
  · rw [hv]
    rfl
  · rw [hv]
    rfl

/-- C4 (amended): the generation event never rebuilds or clears the
collection and consults no average-score threshold; its only index
mutation is the synchronous synthetic-memory append, taken iff the
maximum similarity of the encoded query to the existing vectors (0 when
none exist) is strictly below 0.95, and the append keeps every existing
record in place (the old store is a prefix of the new one). -/
theorem claim_C4_memory_append_only (embed : List Char → Vec) (st : Store)
    (query answer : List Char) (ts : Nat) :
    ((generateMemoryStep embed st query answer ts).1.vectors.take st.vectors.length
        = st.vectors ∧
     (generateMemoryStep embed st query answer ts).1.meta.take st.meta.length = st.meta) ∧
    ((generateMemoryStep embed st query answer ts).2 = true ↔
      (if st.vectors.isEmpty then 0
       else npMax (st.vectors.map (fun v => dotQ v (embed query)))) < 95 / 100) := by
  by_cases hlt : (if st.vectors.isEmpty then (0 : ℚ)
      else npMax (st.vectors.map (fun v => dotQ v (embed query)))) < 95 / 100
  · have hstep : generateMemoryStep embed st query answer ts =
        ((build_and_save_index embed st ("Q: ".toList ++ query ++ "
A: ".toList ++ answer)
          ("synthetic-" ++ toString ts).toList "__synthetic__".toList).1, true) := by
      simp only [generateMemoryStep, if_pos hlt]
    rw [hstep]
    refine ⟨?_, by simpa using hlt⟩
    simp only [build_and_save_index]
    split
    · exact ⟨List.take_length st.vectors, List.take_length st.meta⟩
    · exact ⟨List.take_left _ _, List.take_left _ _⟩
  · have hstep : generateMemoryStep embed st query answer ts = (st, false) := by
      simp only [generateMemoryStep, if_neg hlt]
    rw [hstep]
    exact ⟨⟨List.take_length _, List.take_length _⟩, by simpa using hlt⟩

/-- C4 witness: a concrete instance of `claim_C4_memory_append_only`. -/
theorem claim_C4_witness :
    (generateMemoryStep (fun _ => []) emptyStore "q".toList "a".toList 0).1.vectors.take
      emptyStore.vectors.length = emptyStore.vectors :=
  (claim_C4_memory_append_only (fun _ => []) emptyStore "q".toList "a".toList 0).1.1

/-- C9: the maintenance dedup pass (threshold 0.97, original order)
keeps every pair of retained vectors strictly below 0.97 similarity and
never retains more candidates than it was given; accordingly a
successful rebuild reports `unique_chunks ≤ total_chunks`.  (Retention
iff the retained set is empty or the maximum dot product with the
retained set is < 0.97 is the defining branch of `dedupLoop`.) -/
theorem claim_C9_dedup :
    (∀ rows : List (Vec × MetaRec),
      List.Pairwise (fun a b => dotQ a b < 97 / 100) (dedupLoop (97 / 100) rows [] []).1 ∧
      (dedupLoop (97 / 100) rows [] []).1.length ≤ rows.length) ∧
    ∀ (embed : List Char → Vec) raw_docs oldMeta r,
      rebuild_index embed raw_docs oldMeta = some r → r.unique_chunks ≤ r.total_chunks := by
  constructor
  · intro rows
    refine ⟨dedupLoop_pairwise _ rows [] [] (by simp), ?_⟩
    have h := dedupLoop_length (97 / 100) rows [] []
    simpa using h
  · intro embed raw_docs oldMeta r hr
    simp only [rebuild_index] at hr
    split at hr
    · simp at hr
    · rw [Option.some.injEq] at hr
      subst hr
      exact le_trans (dedupLoop_le_rows _ _) (le_of_eq (List.length_map _ _))

/-- C9 witness: a concrete instance of the rebuild half of
`claim_C9_dedup`. -/
theorem claim_C9_witness :
    (⟨⟨[[]], [⟨"hi".toList, "f".toList, "f".toList⟩]⟩, 1, 1, 0⟩ : RebuildResult).unique_chunks
      ≤ (⟨⟨[[]], [⟨"hi".toList, "f".toList, "f".toList⟩]⟩, 1, 1, 0⟩ : RebuildResult).total_chunks :=
  claim_C9_dedup.2 (fun _ => []) [("f".toList, "hi".toList)] []
    ⟨⟨[[]], [⟨"hi".toList, "f".toList, "f".toList⟩]⟩, 1, 1, 0⟩ (by decide)

/-- C10: the chunk texts stored for an agent upload (and for the agent
background reindex, which shares the same code path) are the default
fixed chunker (800/200) applied to the newline-join of the configured
strategy chunker's output — and that is in general not the strategy
chunker's output itself (witnessed by `"Hi. Yo."` with the sentence
strategy at chunkSize 3, where the stored chunks re-merge what the
strategy split). -/
theorem claim_C10_agent_rechunk :
    (∀ (embed : List Char → Vec) (st : Store) (extracted : List Char) (strategy : String)
      (chunk_size overlap : Nat) (agent_id fid fname : List Char),
      ((agentIndexOneFile embed st extracted strategy chunk_size overlap
          agent_id fid fname).1.meta.drop st.meta.length).map (fun m => m.text)
        = chunk_text (joinNL (chunk_text_strategy extracted strategy chunk_size overlap)) 800 200) ∧
    chunk_text (joinNL (chunk_text_strategy "Hi. Yo.".toList "sentences" 3 0)) 800 200
      ≠ chunk_text_strategy "Hi. Yo.".toList "sentences" 3 0 := by
  constructor
  · intro embed st extracted strategy chunk_size overlap agent_id fid fname
    simp only [agentIndexOneFile, build_and_save_index_to_dir]
    split
    · rename_i hemp
      rw [List.drop_length]
      rw [List.isEmpty_iff] at hemp
      rw [hemp]
      simp
    · rw [List.drop_left]
      simp [List.map_map, Function.comp_def]
  · decide

/-- C10 witness: a concrete instance of `claim_C10_agent_rechunk`. -/
theorem claim_C10_witness :
    ((agentIndexOneFile (fun _ => []) emptyStore "Hi. Yo.".toList "sentences" 3 0
        "9".toList "x".toList "n".toList).1.meta.drop emptyStore.meta.length).map (fun m => m.text)
      = chunk_text (joinNL (chunk_text_strategy "Hi. Yo.".toList "sentences" 3 0)) 800 200 :=
  claim_C10_agent_rechunk.1 (fun _ => []) emptyStore "Hi. Yo.".toList "sentences" 3 0
    "9".toList "x".toList "n".toList

end RagEngine
